import Mathlib

/-!
Shallow embedding of the pakal repository (src/pakal/fileio.py,
src/pakal/stream.py, src/pakal/archive.py) and proofs about it.

Conventions of the embedding:
* Byte buffers are `List Nat` with every element intended below 256
  (numpy dtype u1 / Python bytes).
* Python integers are `Int`; object attributes become structure fields,
  mutation becomes explicit state passing: a method that mutates returns
  the updated object, a method that can raise returns `Except Err`.
* Python slicing with step 1 (used by memoryview and bytes in the
  source) is `pySlice`: negative indices count from the end, out of
  range bounds are clamped.
* Logical archive paths are lists of path components (the result of
  splitting a relative posix path string on the separator), so the path
  string "." / "" corresponds to the empty component list.
-/

/-- Error kinds raised by the embedded code: ValueError on closed
resource access (fileio.py lines 178, 224), OSError on negative seek
(fileio.py line 64), MemberNotFoundError (archive.py line 90) and
IndexError from indexing a buffer out of range. -/
inductive Err where
  | closed
  | negativeSeek
  | memberNotFound
  | indexOut
  deriving DecidableEq

/-- Python sequence slicing `l[a:b]` with implicit step 1: negative
indices count from the end of the sequence and both bounds are clamped
into `[0, len l]`. This is the semantics memoryview and bytes objects
use in fileio.py. -/
def pySlice (l : List Nat) (a b : Int) : List Nat :=
  let n : Int := l.length
  let a2 : Nat := (if a < 0 then max (n + a) 0 else min a n).toNat
  let b2 : Nat := (if b < 0 then max (n + b) 0 else min b n).toNat
  (l.take b2).drop a2

/-- Python sequence indexing `l[i]` for an int index: a negative index
counts from the end, an out of range index raises IndexError. -/
def pyIndex (l : List Nat) (i : Int) : Except Err Nat :=
  let j : Int := if i < 0 then (l.length : Int) + i else i
  if 0 ≤ j ∧ j < (l.length : Int) then .ok (l.getD j.toNat 0) else .error .indexOut

theorem pySlice_full (l : List Nat) : pySlice l 0 (l.length : Int) = l := by
  unfold pySlice
  have h0 : ¬ ((0 : Int) < 0) := by omega
  have h1 : ¬ ((l.length : Int) < 0) := by omega
  have h2 : min (0 : Int) (l.length : Int) = 0 := by omega
  have h3 : min (l.length : Int) (l.length : Int) = (l.length : Int) := by omega
  simp only [h0, h1, if_false, h2, h3, Int.toNat_zero, Int.toNat_natCast,
    List.take_length, List.drop_zero]

/-- The in place byte transform of fileio.py (`data ^ key`, lines 248
and 259): numpy u1 xor applied element wise. For bytes and keys below
256 the xor of naturals coincides with the 8 bit xor, so no reduction
mod 256 is needed. -/
def transform (data : List Nat) (key : Nat) : List Nat :=
  data.map fun b => b ^^^ key

/-- ResourceFile (fileio.py lines 148-224): an addressable byte buffer
with a closed flag. The optional temporary file handle only matters for
OS level cleanup and has no bearing on the byte level behaviour, so it
is not part of the state. -/
structure ResourceFile where
  buffer : List Nat
  closed : Bool
  deriving DecidableEq

/-- `__getitem__` with a slice index (fileio.py lines 214-224): returns
the buffer slice while open, raises ValueError once closed. -/
def ResourceFile.getSlice (r : ResourceFile) (a b : Int) : Except Err (List Nat) :=
  if r.closed = false then .ok (pySlice r.buffer a b) else .error .closed

/-- `__getitem__` with an int index (fileio.py lines 214-224). -/
def ResourceFile.getAt (r : ResourceFile) (i : Int) : Except Err Nat :=
  if r.closed = false then pyIndex r.buffer i else .error .closed

/-- `__len__` (fileio.py lines 171-179): raises ValueError once closed. -/
def ResourceFile.pyLen (r : ResourceFile) : Except Err Nat :=
  if r.closed then .error .closed else .ok r.buffer.length

/-- `close` (fileio.py lines 264-273): closes the temp file, deletes
the buffer attribute and sets the closed flag. -/
def ResourceFile.close (_r : ResourceFile) : ResourceFile :=
  { buffer := [], closed := true }

/-- The small file branch of `ResourceFile.load` (fileio.py lines
244-248): read the whole file into memory, xor with the key unless the
key is zero. The resulting buffer bytes are returned as a ResourceFile. -/
def ResourceFile.loadSmall (content : List Nat) (key : Nat) : ResourceFile :=
  if key = 0 then { buffer := content, closed := false }
  else { buffer := transform content key, closed := false }

/-- The large file branch of `ResourceFile.load` (fileio.py lines
250-262): memory map the source read only; with key zero and copy not
requested, back the resource by that mapping directly; with key zero
and copy requested, stream the mapping into a temporary file and remap
it; otherwise write the xored bytes into a writable mapping of a
temporary file and return a read only remapping of it. The temp file
handle is dropped here since only buffer bytes are compared. -/
def ResourceFile.loadLarge (content : List Nat) (key : Nat) (copy : Bool) : ResourceFile :=
  if key = 0 ∧ copy = false then { buffer := content, closed := false }
  else if key = 0 then { buffer := content, closed := false }
  else { buffer := transform content key, closed := false }

/-- io.DEFAULT_BUFFER_SIZE, the threshold used by `ResourceStream.partial`
(fileio.py line 142). -/
def DEFAULT_BUFFER_SIZE : Int := 8192

/-- ResourceStream (fileio.py lines 32-145): a cursor over a
ResourceFile. `_size` is captured at construction as the buffer length. -/
structure ResourceStream where
  res : ResourceFile
  size : Nat
  pos : Int
  deriving DecidableEq

/-- `__init__` (fileio.py lines 40-48). -/
def ResourceStream.ofRes (res : ResourceFile) : ResourceStream :=
  { res := res, size := res.buffer.length, pos := 0 }

/-- `seek` (fileio.py lines 50-65): computes the target from the whence
mode, stores it, and only then raises OSError if it is negative — the
stored position stays negative when the error is raised. -/
def ResourceStream.seek (s : ResourceStream) (offset : Int) (whence : Nat) :
    (Except Err Int) × ResourceStream :=
  let p : Int := if whence = 1 then offset + s.pos
    else if whence = 2 then offset + (s.size : Int) else offset
  (if p < 0 then .error .negativeSeek else .ok p, { s with pos := p })

/-- `tell` (fileio.py lines 67-73). -/
def ResourceStream.tell (s : ResourceStream) : Int := s.pos

/-- `read` (fileio.py lines 91-104): clamps an explicit nonnegative size
to the remaining bytes, a missing or negative size reads to the end;
advances the position, then slices the backing resource (which raises
if it is closed). -/
def ResourceStream.read (s : ResourceStream) (size : Option Int) :
    (Except Err (List Nat)) × ResourceStream :=
  let n : Int :=
    match size with
    | some sz => if 0 ≤ sz then min ((s.size : Int) - s.pos) sz else (s.size : Int) - s.pos
    | none => (s.size : Int) - s.pos
  let prev := s.pos
  match s.res.getSlice prev (prev + n) with
  | .ok bytes => (.ok bytes, { s with pos := prev + n })
  | .error e => (.error e, { s with pos := prev + n })

/-- `close` (fileio.py lines 127-132): closes the underlying resource. -/
def ResourceStream.close (s : ResourceStream) : ResourceStream :=
  { s with res := s.res.close }

/-- io.BytesIO over an in memory byte string, as returned by the small
branch of `partial` (fileio.py line 145). -/
structure BytesBuf where
  data : List Nat
  pos : Int
  deriving DecidableEq

/-- `io.BytesIO.read()` with no argument: everything from the cursor to
the end. -/
def BytesBuf.readAll (b : BytesBuf) : List Nat × BytesBuf :=
  (pySlice b.data b.pos (b.data.length : Int), { b with pos := (b.data.length : Int) })

/-- The two possible results of `ResourceStream.partial` (fileio.py
lines 134-145): an io.BufferedReader over a fresh ResourceStream, or an
io.BytesIO over a copy of the slice. The BufferedReader wrapper is
transparent for the byte level semantics modelled here. -/
inductive PartialResult where
  | bufferedReader (raw : ResourceStream)
  | memBuf (buf : BytesBuf)
  deriving DecidableEq

/-- `partial` (fileio.py lines 134-145): above the buffering threshold,
wrap a second ResourceFile built over the slice; otherwise copy the
slice into a BytesIO. The method never writes any attribute of self, so
the stream state comes back unchanged. -/
def ResourceStream.partView (s : ResourceStream) (offset size : Int) :
    (Except Err PartialResult) × ResourceStream :=
  if size > DEFAULT_BUFFER_SIZE then
    match s.res.getSlice offset (offset + size) with
    | .ok sl => (.ok (.bufferedReader (ResourceStream.ofRes { buffer := sl, closed := false })), s)
    | .error e => (.error e, s)
  else
    match s.res.getSlice offset (offset + size) with
    | .ok sl => (.ok (.memBuf { data := sl, pos := 0 }), s)
    | .error e => (.error e, s)

/-- Reading a `partial` result to the end: `BufferedReader.read()` with
no argument drains the raw stream (a single raw read returns all the
remaining bytes here, further reads return nothing), `BytesIO.read()`
returns the rest of the in memory buffer. -/
def PartialResult.readAll : PartialResult → Except Err (List Nat)
  | .bufferedReader raw => (raw.read none).1
  | .memBuf b => .ok b.readAll.1

/-- Composition used by claim statements: take the sub stream returned
by `partial(offset, size)` and read it to the end. -/
def partReadAll (s : ResourceStream) (offset size : Int) : Except Err (List Nat) :=
  match (s.partView offset size).1 with
  | .ok pr => pr.readAll
  | .error e => .error e

/-- A generic seekable byte source (an externally supplied file handle,
the case PartialStreamView is written for): contents plus a cursor. In
every state reachable through the real file API the cursor is
nonnegative. -/
structure SourceStream where
  data : List Nat
  pos : Int
  deriving DecidableEq

/-- `seek(p, SEEK_SET)` on the underlying source. -/
def SourceStream.seekSet (st : SourceStream) (p : Int) : SourceStream :=
  { st with pos := p }

/-- `read(n)` on the underlying source: a negative count reads to the
end, otherwise at most `n` bytes from the cursor; the cursor advances
by the number of bytes actually returned. -/
def SourceStream.read (st : SourceStream) (n : Int) : List Nat × SourceStream :=
  let bytes := if n < 0 then pySlice st.data st.pos (st.data.length : Int)
    else pySlice st.data st.pos (st.pos + n)
  (bytes, { st with pos := st.pos + bytes.length })

/-- PartialStreamView (stream.py lines 5-34): a bounded window over a
shared source. The source object itself is passed at read time, so the
state is the window start, the window size and the cursor. -/
structure PartialStreamView where
  start : Int
  size : Int
  pos : Int
  deriving DecidableEq

/-- `__init__` over a plain source (stream.py lines 6-13): the window
start is the source cursor at construction time. -/
def PartialStreamView.ofStream (st : SourceStream) (size : Int) : PartialStreamView :=
  { start := st.pos, size := size, pos := 0 }

/-- `__init__` over another view (stream.py lines 8-11): `tell()` of the
outer view is its cursor, the isinstance branch then adds the outer
window start and rebinds to the innermost source. -/
def PartialStreamView.ofView (v : PartialStreamView) (size : Int) : PartialStreamView :=
  { start := v.pos + v.start, size := size, pos := 0 }

/-- `seek` (stream.py lines 15-21): resolves the whence mode and stores
the result unconditionally — there is no negativity check, the new
position is returned even when it is negative. -/
def PartialStreamView.seek (v : PartialStreamView) (p : Int) (whence : Nat) :
    (Except Err Int) × PartialStreamView :=
  let p2 : Int := if whence = 1 then p + v.pos
    else if whence = 2 then p + v.size else p
  (.ok p2, { v with pos := p2 })

/-- `tell` (stream.py lines 23-24). -/
def PartialStreamView.tell (v : PartialStreamView) : Int := v.pos

/-- `read` (stream.py lines 26-34): always repositions the underlying
source to `start + pos` first, clamps an explicit nonnegative size to
the remaining window (a missing or negative size reads the remaining
window), reads from the source and advances the view cursor by the
number of bytes actually returned. -/
def PartialStreamView.read (v : PartialStreamView) (size : Option Int) (st : SourceStream) :
    List Nat × PartialStreamView × SourceStream :=
  let st1 := st.seekSet (v.start + v.pos)
  let n : Int :=
    match size with
    | some sz => if 0 ≤ sz then min (v.size - v.pos) sz else v.size - v.pos
    | none => v.size - v.pos
  let r := st1.read n
  (r.1, { v with pos := v.pos + r.1.length }, r.2)

/-- One step of posixpath.normpath over the split components of a
relative path (archive.py line 246 normalizes every index key with
os.path.normpath): empty and "." components are dropped, ".." is
appended when the accumulator is empty or ends in "..", and otherwise
pops the last component; every other component is appended. The
accumulator is kept reversed (head = most recently appended). -/
def normStep (acc : List String) (comp : String) : List String :=
  if comp = "" ∨ comp = "." then acc
  else if comp = ".." then
    match acc with
    | [] => [".."]
    | c :: rest => if c = ".." then comp :: c :: rest else rest
  else comp :: acc

/-- os.path.normpath on a relative path given as its component list;
the empty output list corresponds to the path string ".". -/
def normParts (parts : List String) : List String :=
  (parts.foldl normStep []).reverse

/-- Shape invariant of normalized output: some parent jumps first, then
components that are neither empty nor "." nor "..". Stated on the
reversed accumulator used by `normStep`. -/
def NormAcc (acc : List String) : Prop :=
  ∃ ns ps, acc = ns ++ ps ∧
    (∀ c ∈ ns, c ≠ "" ∧ c ≠ "." ∧ c ≠ "..") ∧
    (∀ c ∈ ps, c = "..")

theorem normStep_skip (acc : List String) (comp : String) (h : comp = "" ∨ comp = ".") :
    normStep acc comp = acc := by
  unfold normStep
  rw [if_pos h]

theorem normStep_normal (acc : List String) (comp : String)
    (h : comp ≠ "" ∧ comp ≠ "." ∧ comp ≠ "..") : normStep acc comp = comp :: acc := by
  unfold normStep
  rw [if_neg (by simp [h.1, h.2.1]), if_neg h.2.2]

theorem normStep_pard_nil : normStep [] ".." = [".."] := rfl

theorem normStep_pard_cons_pard (rest : List String) :
    normStep (".." :: rest) ".." = ".." :: ".." :: rest := rfl

theorem normStep_pard_cons_normal (c : String) (rest : List String) (h : c ≠ "..") :
    normStep (c :: rest) ".." = rest := by
  have he : normStep (c :: rest) ".." = if c = ".." then ".." :: c :: rest else rest := rfl
  rw [he, if_neg h]

theorem normStep_pardir (acc : List String) (h : ∀ c ∈ acc, c = "..") :
    normStep acc ".." = ".." :: acc := by
  cases acc with
  | nil => exact normStep_pard_nil
  | cons c rest =>
    have hc : c = ".." := h c (by simp)
    subst hc
    exact normStep_pard_cons_pard rest

theorem normStep_normAcc (acc : List String) (comp : String) (h : NormAcc acc) :
    NormAcc (normStep acc comp) := by
  obtain ⟨ns, ps, rfl, hns, hps⟩ := h
  by_cases h1 : comp = "" ∨ comp = "."
  · rw [normStep_skip _ _ h1]
    exact ⟨ns, ps, rfl, hns, hps⟩
  · obtain ⟨h1a, h1b⟩ := not_or.mp h1
    by_cases h2 : comp = ".."
    · subst h2
      cases ns with
      | nil =>
        cases ps with
        | nil =>
          simp only [List.nil_append]
          rw [normStep_pard_nil]
          exact ⟨[], [".."], by simp, by simp, by simp⟩
        | cons c rest =>
          have hc : c = ".." := hps c (by simp)
          subst hc
          simp only [List.nil_append]
          rw [normStep_pard_cons_pard]
          refine ⟨[], ".." :: ".." :: rest, by simp, by simp, ?_⟩
          intro x hx
          rcases List.mem_cons.mp hx with rfl | hx
          · rfl
          rcases List.mem_cons.mp hx with rfl | hx
          · rfl
          · exact hps x (List.mem_cons_of_mem _ hx)
      | cons c rest =>
        have hc := hns c (by simp)
        simp only [List.cons_append]
        rw [normStep_pard_cons_normal _ _ hc.2.2]
        exact ⟨rest, ps, rfl, fun x hx => hns x (List.mem_cons_of_mem _ hx), hps⟩
    · rw [normStep_normal _ _ ⟨h1a, h1b, h2⟩]
      refine ⟨comp :: ns, ps, by simp, ?_, hps⟩
      intro x hx
      rcases List.mem_cons.mp hx with rfl | hx
      · exact ⟨h1a, h1b, h2⟩
      · exact hns x hx

theorem foldl_normStep_normAcc (parts : List String) (acc : List String) (h : NormAcc acc) :
    NormAcc (parts.foldl normStep acc) := by
  induction parts generalizing acc with
  | nil => exact h
  | cons c rest ih => exact ih (normStep acc c) (normStep_normAcc acc c h)

theorem foldl_normStep_normal (l acc : List String)
    (h : ∀ c ∈ l, c ≠ "" ∧ c ≠ "." ∧ c ≠ "..") :
    l.foldl normStep acc = l.reverse ++ acc := by
  induction l generalizing acc with
  | nil => simp
  | cons c rest ih =>
    rw [List.foldl_cons, normStep_normal acc c (h c (by simp)),
      ih (c :: acc) (fun x hx => h x (List.mem_cons_of_mem _ hx))]
    simp

theorem foldl_normStep_pardirs (l acc : List String)
    (hl : ∀ c ∈ l, c = "..") (ha : ∀ c ∈ acc, c = "..") :
    l.foldl normStep acc = l.reverse ++ acc := by
  induction l generalizing acc with
  | nil => simp
  | cons c rest ih =>
    have hc : c = ".." := hl c (by simp)
    subst hc
    rw [List.foldl_cons, normStep_pardir acc ha,
      ih (".." :: acc) (fun x hx => hl x (List.mem_cons_of_mem _ hx))
        (by intro x hx
            rcases List.mem_cons.mp hx with rfl | hx
            · rfl
            · exact ha x hx)]
    simp

/-- Normalization is idempotent: renormalizing an already normalized
component list changes nothing. -/
theorem normParts_idem (parts : List String) : normParts (normParts parts) = normParts parts := by
  obtain ⟨ns, ps, hacc, hns, hps⟩ :=
    foldl_normStep_normAcc parts [] ⟨[], [], rfl, by simp, by simp⟩
  have h1 : normParts parts = ps.reverse ++ ns.reverse := by
    unfold normParts
    rw [hacc, List.reverse_append]
  have h2 : List.foldl normStep [] (ps.reverse ++ ns.reverse) = ns ++ ps := by
    rw [List.foldl_append,
      foldl_normStep_pardirs ps.reverse [] (fun c hc => hps c (List.mem_reverse.mp hc))
        (by simp),
      List.append_nil, List.reverse_reverse,
      foldl_normStep_normal ns.reverse ps (fun c hc => hns c (List.mem_reverse.mp hc)),
      List.reverse_reverse]
  show (List.foldl normStep [] (normParts parts)).reverse = normParts parts
  rw [h1, h2, List.reverse_append]

/-- The index construction of `BaseArchive.__init__` (archive.py lines
245-248): every key returned by the format hook is normalized with
os.path.normpath. The hook result is kept as an association list; dict
key collapsing does not change which keys are present. -/
def BaseArchive.buildIndex {β : Type} (hook : List (List String × β)) :
    List (List String × β) :=
  hook.map fun kv => (normParts kv.1, kv.2)

/-- Dictionary lookup `self.index[key]` on the association list. -/
def lookupKey {β : Type} (idx : List (List String × β)) (k : List String) : Option β :=
  (idx.find? fun kv => decide (kv.1 = k)).map Prod.snd

/-- The lookup phase of `BaseArchive.open` (archive.py lines 258-261):
normalize the requested name, fail with MemberNotFoundError when it is
not an index key. -/
def BaseArchive.resolveMember {β : Type} (idx : List (List String × β))
    (fname : List String) : Except Err β :=
  match lookupKey idx (normParts fname) with
  | none => .error .memberNotFound
  | some en => .ok en

/-- `BaseArchive.open` combined with `SimpleArchive._read_entry` and
`read_file` for a ResourceStream backed archive (archive.py lines
250-272, 308-312 and 66-87): resolve the member, then hand its offset
and size to `partial` of the backing stream. -/
def BaseArchive.openEntry (rs : ResourceStream) (idx : List (List String × (Int × Int)))
    (fname : List String) : Except Err PartialResult :=
  match BaseArchive.resolveMember idx fname with
  | .error e => .error e
  | .ok en => (rs.partView en.1 en.2).1

/-- fnmatch.fnmatchcase of one path component against the pattern `*`:
the translated regular expression matches every string. -/
def fnmatchStar (_s : String) : Bool := true

/-- `ArchivePath.match` against the pattern `*` (archive.py lines
144-148 together the path normalization in `ArchivePath.__init__`, line
101): pathlib matches a relative single component pattern against the
final component, and a path with fewer components than the pattern (the
empty component list, printed as ".") matches nothing. -/
def ArchivePath.matchAll (fname : List String) : Bool :=
  let parts := normParts fname
  if parts.length < 1 then false else fnmatchStar (parts.getLastD "")

/-- `BaseArchive.glob(GLOB_ALL)` (archive.py lines 285-290): iterate the
index keys and keep those matching the pattern `*`. -/
def BaseArchive.globAll {β : Type} (idx : List (List String × β)) : List (List String) :=
  (idx.map Prod.fst).filter ArchivePath.matchAll

/-- Helper: reading a freshly constructed stream over an open resource
to the end returns the whole buffer. -/
theorem readAll_fresh (sl : List Nat) :
    ((ResourceStream.ofRes { buffer := sl, closed := false }).read none).1 = .ok sl := by
  simp [ResourceStream.read, ResourceStream.ofRes, ResourceFile.getSlice, pySlice_full]

/-- Helper: draining a fresh BytesIO returns its whole content. -/
theorem bytesBuf_readAll_fresh (sl : List Nat) :
    (BytesBuf.readAll { data := sl, pos := 0 }).1 = sl := by
  simp [BytesBuf.readAll, pySlice_full]

theorem lookupKey_of_mem {β : Type} (idx : List (List String × β)) (k : List String)
    (h : k ∈ idx.map Prod.fst) : ∃ en, lookupKey idx k = some en := by
  induction idx with
  | nil => simp at h
  | cons kv rest ih =>
    by_cases hk : kv.1 = k
    · refine ⟨kv.2, ?_⟩
      unfold lookupKey
      rw [List.find?_cons_of_pos _ (by simp [hk])]
      rfl
    · have h2 : k ∈ rest.map Prod.fst := by
        rcases List.mem_cons.mp h with h3 | h3
        · exact absurd h3.symm hk
        · exact h3
      obtain ⟨en, hen⟩ := ih h2
      refine ⟨en, ?_⟩
      unfold lookupKey at hen ⊢
      rw [List.find?_cons_of_neg _ (by simp [hk])]
      exact hen

/-- C7: for every byte sequence (including the empty one) and every key
in 1..255, applying the XOR transform twice with the same key returns
the original sequence, and with key 0 the transform is the identity. -/
theorem c7_transform_involutive (data : List Nat) (key : Nat)
    (h1 : 1 ≤ key) (h2 : key ≤ 255) :
    transform (transform data key) key = data ∧ transform data 0 = data := by
  constructor
  · unfold transform
    rw [List.map_map]
    have he : ((fun b => b ^^^ key) ∘ fun b : Nat => b ^^^ key) = fun b : Nat => b := by
      funext b
      simp [Function.comp, Nat.xor_assoc]
    rw [he]
    simp
  · unfold transform
    simp

theorem c7_transform_involutive_witness :
    1 ≤ 90 ∧ 90 ≤ 255 ∧
      (transform (transform [1, 2, 3] 90) 90 = [1, 2, 3] ∧ transform [1, 2, 3] 0 = [1, 2, 3]) :=
  ⟨by decide, by decide, c7_transform_involutive [1, 2, 3] 90 (by decide) (by decide)⟩

/-- C4: for every file content and every key in 0..255, the large-file
path of ResourceFile.load produces a Resource whose byte content is
identical to the one produced by the small-file in-memory path on the
same content and key. -/
theorem c4_load_paths_agree (content : List Nat) (key : Nat) (copy : Bool) (h : key ≤ 255) :
    (ResourceFile.loadLarge content key copy).buffer
      = (ResourceFile.loadSmall content key).buffer := by
  unfold ResourceFile.loadLarge ResourceFile.loadSmall
  by_cases hk : key = 0 <;> by_cases hc : copy = false <;> simp [hk, hc]

theorem c4_load_paths_agree_witness :
    90 ≤ 255 ∧
      (ResourceFile.loadLarge [1, 2, 3] 90 true).buffer
        = (ResourceFile.loadSmall [1, 2, 3] 90).buffer :=
  ⟨by decide, c4_load_paths_agree [1, 2, 3] 90 true (by decide)⟩

/-- C5: the result of PartialStreamView.read (the bytes, the view state
afterwards and even the source state afterwards) does not depend on
where the cursor of the underlying shared source happens to be when
read is called, because read repositions the source first. -/
theorem c5_read_independent_of_source_cursor (v : PartialStreamView) (n : Option Int)
    (d : List Nat) (c1 c2 : Int) :
    v.read n { data := d, pos := c1 } = v.read n { data := d, pos := c2 } := rfl

/-- C9: ResourceStream.partial leaves the stream itself unchanged — the
state comes back identical, tell is unchanged and a subsequent read
returns exactly what it would have returned without the partial call. -/
theorem c9_partView_frame (s : ResourceStream) (offset size : Int) (n : Option Int) :
    (s.partView offset size).2 = s ∧
    ((s.partView offset size).2).tell = s.tell ∧
    ((s.partView offset size).2).read n = s.read n := by
  have h : (s.partView offset size).2 = s := by
    unfold ResourceStream.partView
    split
    · split <;> rfl
    · split <;> rfl
  exact ⟨h, by rw [h], by rw [h]⟩

/-- C3 counterexample: PartialStreamView.seek with an absolute target of
-1 does not raise any error — it returns -1 and leaves the position at
-1, refuting the claim that every stream of the system rejects negative
resulting positions with an I/O error. -/
theorem c3_counterexample :
    (PartialStreamView.seek (PartialStreamView.ofStream { data := [0, 1, 2], pos := 0 } 3)
        (-1) 0).1 = .ok (-1) ∧
    ((PartialStreamView.seek (PartialStreamView.ofStream { data := [0, 1, 2], pos := 0 } 3)
        (-1) 0).2).pos = -1 :=
  ⟨rfl, rfl⟩

/-- C3 amended: both seek implementations resolve absolute,
relative-to-current and relative-to-end addressing the same way, but
only ResourceStream.seek signals an I/O error on a negative resulting
position — and it stores the negative position before raising — while
PartialStreamView.seek performs no check at all and returns the
possibly negative position. -/
theorem c3_seek_negative_behaviour :
    (∀ (s : ResourceStream) (off : Int) (w : Nat),
      ((ResourceStream.seek s off w).2).pos
          = (if w = 1 then off + s.pos else if w = 2 then off + (s.size : Int) else off) ∧
      (ResourceStream.seek s off w).1
          = (if ((ResourceStream.seek s off w).2).pos < 0 then .error .negativeSeek
             else .ok ((ResourceStream.seek s off w).2).pos)) ∧
    (∀ (v : PartialStreamView) (p : Int) (w : Nat),
      (PartialStreamView.seek v p w).1 = .ok ((PartialStreamView.seek v p w).2).pos ∧
      ((PartialStreamView.seek v p w).2).pos
          = (if w = 1 then p + v.pos else if w = 2 then p + v.size else p)) :=
  ⟨fun _ _ _ => ⟨rfl, rfl⟩, fun _ _ _ => ⟨rfl, rfl⟩⟩

/-- C1: for every buffer and every (offset, size) pair with a
nonnegative offset lying inside the buffer, reading the stream returned
by partial(offset, size) to the end yields exactly the slice
buffer[offset : offset + size] — in both the buffered branch (size
above the buffering threshold) and the in-memory branch. -/
theorem c1_partView_reads_slice (b : List Nat) (offset size : Int)
    (h1 : 0 ≤ offset) (h2 : offset + size ≤ (b.length : Int)) :
    partReadAll (ResourceStream.ofRes { buffer := b, closed := false }) offset size
      = .ok (pySlice b offset (offset + size)) := by
  have hs : (ResourceStream.ofRes { buffer := b, closed := false }).res.getSlice offset
      (offset + size) = .ok (pySlice b offset (offset + size)) := rfl
  by_cases hbig : size > DEFAULT_BUFFER_SIZE
  · have hv : (ResourceStream.partView (ResourceStream.ofRes { buffer := b, closed := false })
        offset size).1
        = .ok (.bufferedReader (ResourceStream.ofRes
            { buffer := pySlice b offset (offset + size), closed := false })) := by
      unfold ResourceStream.partView
      rw [if_pos hbig, hs]
    unfold partReadAll
    rw [hv]
    exact readAll_fresh _
  · have hv : (ResourceStream.partView (ResourceStream.ofRes { buffer := b, closed := false })
        offset size).1
        = .ok (.memBuf { data := pySlice b offset (offset + size), pos := 0 }) := by
      unfold ResourceStream.partView
      rw [if_neg hbig, hs]
    unfold partReadAll
    rw [hv]
    show Except.ok (BytesBuf.readAll { data := pySlice b offset (offset + size), pos := 0 }).1
      = Except.ok (pySlice b offset (offset + size))
    rw [bytesBuf_readAll_fresh]

theorem c1_partView_reads_slice_witness :
    (0 : Int) ≤ 1 ∧ (1 : Int) + 2 ≤ (([5, 6, 7, 8] : List Nat).length : Int) ∧
      partReadAll (ResourceStream.ofRes { buffer := [5, 6, 7, 8], closed := false }) 1 2
        = .ok (pySlice [5, 6, 7, 8] 1 (1 + 2)) :=
  ⟨by decide, by decide, c1_partView_reads_slice [5, 6, 7, 8] 1 2 (by decide) (by decide)⟩

/-- C2: a view of size s2 constructed over a freshly built view of size
s1 whose window starts at s1_start collapses at construction to a view
bound directly to the innermost source with the start offsets summed;
seeking it to any valid position p and reading behaves exactly like the
directly constructed flattened view, and the bytes read equal those of
a single view over the source whose window starts at s1_start + p. -/
theorem c2_nested_views_collapse (d : List Nat) (c s1_start s1 s2 p : Int) (n : Option Int)
    (st : SourceStream) (h1 : s2 ≤ s1) (h2 : 0 ≤ p) (h3 : p ≤ s2) :
    (PartialStreamView.ofView
        (PartialStreamView.ofStream (SourceStream.seekSet { data := d, pos := c } s1_start) s1) s2
      = PartialStreamView.ofStream (SourceStream.seekSet { data := d, pos := c } s1_start) s2) ∧
    (((PartialStreamView.ofView
          (PartialStreamView.ofStream (SourceStream.seekSet { data := d, pos := c } s1_start) s1)
            s2).seek p 0).2.read n st
      = (((PartialStreamView.ofStream (SourceStream.seekSet { data := d, pos := c } s1_start)
            s2).seek p 0).2).read n st) ∧
    ((((PartialStreamView.ofView
          (PartialStreamView.ofStream (SourceStream.seekSet { data := d, pos := c } s1_start) s1)
            s2).seek p 0).2.read n st).1
      = ((PartialStreamView.ofStream (SourceStream.seekSet { data := d, pos := c } (s1_start + p))
            (s2 - p)).read n st).1) := by
  have hA : PartialStreamView.ofView
      (PartialStreamView.ofStream (SourceStream.seekSet { data := d, pos := c } s1_start) s1) s2
      = PartialStreamView.ofStream (SourceStream.seekSet { data := d, pos := c } s1_start) s2 := by
    simp [PartialStreamView.ofView, PartialStreamView.ofStream, SourceStream.seekSet]
  refine ⟨hA, by rw [hA], ?_⟩
  rw [hA]
  have hseek : ((PartialStreamView.ofStream (SourceStream.seekSet { data := d, pos := c }
      s1_start) s2).seek p 0).2
      = { start := s1_start, size := s2, pos := p } := rfl
  rw [hseek]
  cases n with
  | none =>
    simp only [PartialStreamView.read, PartialStreamView.ofStream, SourceStream.seekSet,
      SourceStream.read]
    norm_num
  | some sz =>
    by_cases hsz : 0 ≤ sz <;>
      simp only [PartialStreamView.read, PartialStreamView.ofStream, SourceStream.seekSet,
        SourceStream.read, hsz, if_pos, if_neg] <;>
      norm_num

theorem c2_nested_views_collapse_witness :
    (2 : Int) ≤ 4 ∧ (0 : Int) ≤ 1 ∧ (1 : Int) ≤ 2 ∧
      ((((PartialStreamView.ofView
            (PartialStreamView.ofStream
              (SourceStream.seekSet { data := [0, 1, 2, 3, 4, 5], pos := 0 } 1) 4) 2).seek 1
                0).2.read none { data := [0, 1, 2, 3, 4, 5], pos := 0 }).1
        = ((PartialStreamView.ofStream
              (SourceStream.seekSet { data := [0, 1, 2, 3, 4, 5], pos := 0 } (1 + 1))
              (2 - 1)).read none { data := [0, 1, 2, 3, 4, 5], pos := 0 }).1) :=
  ⟨by decide, by decide, by decide,
    (c2_nested_views_collapse [0, 1, 2, 3, 4, 5] 0 1 4 2 1 none
      { data := [0, 1, 2, 3, 4, 5], pos := 0 } (by decide) (by decide) (by decide)).2.2⟩

/-- C6 counterexample: a format hook may return the empty path (its
normalization is the key "." — the empty component list); that key is
in the index, but pathlib matching of "." against the pattern `*` is
False, so glob yields strictly fewer paths than there are index keys. -/
theorem c6_counterexample :
    BaseArchive.globAll (BaseArchive.buildIndex [(([""] : List String), (0 : Nat))])
      ≠ (BaseArchive.buildIndex [(([""] : List String), (0 : Nat))]).map Prod.fst := by
  decide

/-- C6 amended: glob of `*` over an archive index yields exactly the
normalized keys that have at least one path component; equivalently,
whenever the key "." (the empty component list) is not among the index
keys, glob of `*` yields exactly the index keys. -/
theorem c6_globAll_yields_keys {β : Type} (hook : List (List String × β))
    (h : ([] : List String) ∉ (BaseArchive.buildIndex hook).map Prod.fst) :
    BaseArchive.globAll (BaseArchive.buildIndex hook)
      = (BaseArchive.buildIndex hook).map Prod.fst := by
  unfold BaseArchive.globAll
  rw [List.filter_eq_self]
  intro k hk
  have hnorm : normParts k = k := by
    unfold BaseArchive.buildIndex at hk
    rw [List.map_map] at hk
    obtain ⟨kv, hkv, rfl⟩ := List.mem_map.mp hk
    exact normParts_idem kv.1
  have hne : k ≠ [] := fun he => h (he ▸ hk)
  simp only [ArchivePath.matchAll, fnmatchStar, hnorm]
  have hlen : ¬ (k.length < 1) := by
    cases k with
    | nil => exact absurd rfl hne
    | cons a l => simp
  rw [if_neg hlen]

theorem c6_globAll_yields_keys_witness :
    (([] : List String) ∉ (BaseArchive.buildIndex
        [((["a"] : List String), (0 : Nat)), ((["b", "c.bin"] : List String), 1)]).map
          Prod.fst) ∧
      BaseArchive.globAll (BaseArchive.buildIndex
          [((["a"] : List String), (0 : Nat)), ((["b", "c.bin"] : List String), 1)])
        = (BaseArchive.buildIndex
            [((["a"] : List String), (0 : Nat)), ((["b", "c.bin"] : List String), 1)]).map
              Prod.fst :=
  ⟨by decide,
    c6_globAll_yields_keys [((["a"] : List String), (0 : Nat)), ((["b", "c.bin"] : List String), 1)]
      (by decide)⟩

/-- C8: while a ResourceFile is open, indexed access and length queries
return data from the backing buffer; once close() has run, slice
access, int access and length all raise the closed-resource error, and
opening an archive member through a backing stream whose resource was
closed by the archive fails with the closed-resource error as well
(the member lookup itself still succeeds, the failure comes from the
buffer access). -/
theorem c8_closed_resource_errors (b : List Nat) (a c i : Int)
    (idx : List (List String × (Int × Int))) (nm : List String) (en : Int × Int)
    (hi : 0 ≤ i ∧ i < (b.length : Int))
    (hl : lookupKey idx (normParts nm) = some en) :
    (ResourceFile.getSlice { buffer := b, closed := false } a c = .ok (pySlice b a c)) ∧
    (ResourceFile.getAt { buffer := b, closed := false } i = .ok (b.getD i.toNat 0)) ∧
    (ResourceFile.pyLen { buffer := b, closed := false } = .ok b.length) ∧
    (ResourceFile.getSlice (ResourceFile.close { buffer := b, closed := false }) a c
      = .error .closed) ∧
    (ResourceFile.getAt (ResourceFile.close { buffer := b, closed := false }) i
      = .error .closed) ∧
    (ResourceFile.pyLen (ResourceFile.close { buffer := b, closed := false })
      = .error .closed) ∧
    (BaseArchive.openEntry (ResourceStream.close (ResourceStream.ofRes
        { buffer := b, closed := false })) idx nm = .error .closed) := by
  refine ⟨rfl, ?_, rfl, rfl, rfl, rfl, ?_⟩
  · show pyIndex b i = .ok (b.getD i.toNat 0)
    simp only [pyIndex]
    rw [if_neg (show ¬ i < 0 by omega), if_pos hi]
  · have hres : BaseArchive.resolveMember idx nm = .ok en := by
      unfold BaseArchive.resolveMember
      rw [hl]
    unfold BaseArchive.openEntry
    rw [hres]
    have hcl : (ResourceStream.close (ResourceStream.ofRes
        { buffer := b, closed := false })).res.getSlice en.1 (en.1 + en.2)
        = .error .closed := rfl
    show (ResourceStream.partView _ en.1 en.2).1 = _
    unfold ResourceStream.partView
    split
    · rw [hcl]
    · rw [hcl]

theorem c8_closed_resource_errors_witness :
    ((0 : Int) ≤ 0 ∧ (0 : Int) < (([7, 8] : List Nat).length : Int)) ∧
    lookupKey [((["a"] : List String), ((0 : Int), (1 : Int)))] (normParts ["a"])
      = some (0, 1) ∧
    ((ResourceFile.getSlice { buffer := [7, 8], closed := false } 0 1
        = .ok (pySlice [7, 8] 0 1)) ∧
      (ResourceFile.getAt { buffer := [7, 8], closed := false } 0
        = .ok (([7, 8] : List Nat).getD (0 : Int).toNat 0)) ∧
      (ResourceFile.pyLen { buffer := [7, 8], closed := false } = .ok ([7, 8] : List Nat).length) ∧
      (ResourceFile.getSlice (ResourceFile.close { buffer := [7, 8], closed := false }) 0 1
        = .error .closed) ∧
      (ResourceFile.getAt (ResourceFile.close { buffer := [7, 8], closed := false }) 0
        = .error .closed) ∧
      (ResourceFile.pyLen (ResourceFile.close { buffer := [7, 8], closed := false })
        = .error .closed) ∧
      (BaseArchive.openEntry (ResourceStream.close (ResourceStream.ofRes
          { buffer := [7, 8], closed := false })) [((["a"] : List String), ((0 : Int), (1 : Int)))]
            ["a"] = .error .closed)) :=
  ⟨⟨by decide, by decide⟩, by decide,
    c8_closed_resource_errors [7, 8] 0 1 0 [((["a"] : List String), ((0 : Int), (1 : Int)))]
      ["a"] (0, 1) ⟨by decide, by decide⟩ (by decide)⟩

/-- C10: index keys are normalized once at construction, open applies
the same normalization to its argument, and that normalization is
idempotent — hence every key yielded by iterating the archive resolves
back to its index entry and opening it cannot fail with
MemberNotFoundError. -/
theorem c10_listed_paths_open {β : Type} (hook : List (List String × β)) (k : List String)
    (hk : k ∈ (BaseArchive.buildIndex hook).map Prod.fst) :
    normParts k = k ∧
      ∃ en, BaseArchive.resolveMember (BaseArchive.buildIndex hook) k = .ok en := by
  have hnorm : normParts k = k := by
    unfold BaseArchive.buildIndex at hk
    rw [List.map_map] at hk
    obtain ⟨kv, hkv, rfl⟩ := List.mem_map.mp hk
    exact normParts_idem kv.1
  refine ⟨hnorm, ?_⟩
  obtain ⟨en, hen⟩ := lookupKey_of_mem _ k hk
  refine ⟨en, ?_⟩
  unfold BaseArchive.resolveMember
  rw [hnorm, hen]

theorem c10_listed_paths_open_witness :
    (["sub", "a.txt"] : List String) ∈ (BaseArchive.buildIndex
        [((["sub", ".", "a.txt"] : List String), (0 : Nat))]).map Prod.fst ∧
      (normParts ["sub", "a.txt"] = ["sub", "a.txt"] ∧
        ∃ en, BaseArchive.resolveMember
          (BaseArchive.buildIndex [((["sub", ".", "a.txt"] : List String), (0 : Nat))])
            ["sub", "a.txt"] = .ok en) :=
  ⟨by decide,
    c10_listed_paths_open [((["sub", ".", "a.txt"] : List String), (0 : Nat))]
      ["sub", "a.txt"] (by decide)⟩
